import Mathlib

/-!
Verification of the TTML lyric parser of the AMLL TTML Tool repository
(file src/modules/project/logic/ttml-parser.ts).

The parser walks an XML document model. We embed the relevant fragment of
the DOM as the inductive type XNode (element and text nodes), and translate
each parser function into a Lean function over that tree. Times are integer
milliseconds; the type Time = WithTop Nat additionally contains the top
element, which models the JavaScript value Number.POSITIVE_INFINITY used by
the source as the seed of its minimum folds. The external Timespan Codec
(parseTimespan, a separate utility module), the JavaScript Number conversion
used for the empty-beat attribute, and the DOM innerHTML serializer are
taken as parameters, bundled in JsEnv; every theorem quantifies over them.
The unique id generator (uid) is external and the generated ids influence no
claim, so the id fields are omitted from the embedded records.

JavaScript string semantics used by the source and their embedding:
a string is truthy iff it is non empty; String.prototype.trim removes
leading and trailing whitespace (embedded via the ASCII whitespace class,
which covers all inputs considered here); substring(1) removes the first
UTF-16 unit, applied by the source only after matching a BMP parenthesis,
hence equal to removing the first character.
-/

/-- Time in integer milliseconds, together with the top element standing for
the JavaScript Number.POSITIVE_INFINITY sentinel. -/
abbrev Time : Type := ℕ∞

/-- JavaScript whitespace test for the characters that occur in the data
considered here (the source uses String.prototype.trim). -/
def isWSChar (c : Char) : Bool :=
  c == ' ' || c == '\t' || c == '\n' || c == '\r'

/-- Embedding of String.prototype.trim. -/
def jsTrim (s : String) : String :=
  String.mk (((s.data.dropWhile isWSChar).reverse.dropWhile isWSChar).reverse)

/-- Test used throughout the source as word.trim().length > 0. -/
def wordNonWS (s : String) : Bool :=
  !(jsTrim s).data.isEmpty

/-- JavaScript truthiness of a string or null attribute value: present and
non empty. -/
def optTruthy (o : Option String) : Bool :=
  match o with
  | some s => !s.data.isEmpty
  | none => false

/-- Suffix test on character lists, for the endsWith check of getAttr. -/
def listEndsWith (l suf : List Char) : Bool :=
  l.drop (l.length - suf.length) == suf

/-- Embedding of String.prototype.endsWith. -/
def strEndsWith (s suf : String) : Bool :=
  listEndsWith s.data suf.data

/-- Characters after the last colon, used for tagName.split(":").pop(). -/
def afterLastColon (l : List Char) : List Char :=
  (l.reverse.takeWhile (fun c => !(c == ':'))).reverse

/-- Local name of a qualified XML name: the segment after the last colon,
falling back to the whole name when that segment is empty. This embeds the
chain el.localName || el.tagName.split(":").pop() || el.tagName of the
source function localName, and likewise attr.localName for attributes. -/
def localNameOfTag (tag : String) : String :=
  let seg := String.mk (afterLastColon tag.data)
  if seg.data.isEmpty then tag else seg

/-- An XML attribute: qualified name and value. -/
structure XAttr where
  name : String
  value : String
deriving DecidableEq

/-- The XML document fragment model: text nodes and element nodes with a
qualified tag name, attributes and child nodes in document order. -/
inductive XNode where
  | text (content : String)
  | elem (tagName : String) (attrs : List XAttr) (children : List XNode)

/-- DOM getAttribute: exact qualified-name lookup. -/
def getAttribute (attrs : List XAttr) (target : String) : Option String :=
  (attrs.find? (fun a => a.name == target)).map (fun a => a.value)

/-- The namespace-tolerant Attribute Resolver getAttr of the source: first
an exact lookup, then a scan for an attribute whose local name equals the
target, whose full name equals the target, or whose full name ends in a
colon followed by the target. -/
def getAttr (attrs : List XAttr) (target : String) : Option String :=
  match getAttribute attrs target with
  | some v => some v
  | none =>
      (attrs.find? (fun a =>
        localNameOfTag a.name == target || a.name == target ||
          strEndsWith a.name (":" ++ target))).map (fun a => a.value)

/-- The intermediate span tree node of the source (interface SpanNode):
own leading text, the six resolved attributes, child span nodes, and the
tail text that follows this node inside its parent. -/
inductive SpanNode where
  | mk (text : String) (beginAttr endAttr role lang emptyBeat ruby : Option String)
      (children : List SpanNode) (tail : String)

def SpanNode.text : SpanNode → String
  | .mk t _ _ _ _ _ _ _ _ => t

def SpanNode.beginAttr : SpanNode → Option String
  | .mk _ b _ _ _ _ _ _ _ => b

def SpanNode.endAttr : SpanNode → Option String
  | .mk _ _ e _ _ _ _ _ _ => e

def SpanNode.role : SpanNode → Option String
  | .mk _ _ _ r _ _ _ _ _ => r

def SpanNode.lang : SpanNode → Option String
  | .mk _ _ _ _ lg _ _ _ _ => lg

def SpanNode.emptyBeat : SpanNode → Option String
  | .mk _ _ _ _ _ eb _ _ _ => eb

def SpanNode.ruby : SpanNode → Option String
  | .mk _ _ _ _ _ _ rb _ _ => rb

def SpanNode.children : SpanNode → List SpanNode
  | .mk _ _ _ _ _ _ _ ch _ => ch

def SpanNode.tail : SpanNode → String
  | .mk _ _ _ _ _ _ _ _ tl => tl

/-- Append text to the tail of the last span child, embedding the statement
lastChild.tail += text of parseSpan. -/
def appendTailLast : List SpanNode → String → List SpanNode
  | [], _ => []
  | [SpanNode.mk t b e r lg eb rb ch tl], s => [SpanNode.mk t b e r lg eb rb ch (tl ++ s)]
  | c :: c2 :: rest, s => c :: appendTailLast (c2 :: rest) s

mutual
/-- The Span Tree Builder parseSpan of the source: resolves the six
attributes via getAttr and walks the child nodes; text before the first
span child becomes the own text, text after a span child is appended to
that child as tail text, and only child elements whose local name is span
become children. -/
def parseSpanNode : XNode → SpanNode
  | .text _ => SpanNode.mk "" none none none none none none [] ""
  | .elem _ attrs children =>
      let tk := parseSpanContent children "" []
      SpanNode.mk tk.1 (getAttr attrs "begin") (getAttr attrs "end")
        (getAttr attrs "role") (getAttr attrs "lang") (getAttr attrs "empty-beat")
        (getAttr attrs "ruby") tk.2 ""

/-- Child traversal of parseSpan, accumulating the own text and the list of
span children (the last of which receives subsequent tail text). -/
def parseSpanContent : List XNode → String → List SpanNode → String × List SpanNode
  | [], txt, kids => (txt, kids)
  | n :: rest, txt, kids =>
      match n with
      | .text s =>
          if kids.isEmpty then parseSpanContent rest (txt ++ s) kids
          else parseSpanContent rest txt (appendTailLast kids s)
      | .elem tag _ _ =>
          if localNameOfTag tag == "span" then
            parseSpanContent rest txt (kids ++ [parseSpanNode n])
          else
            parseSpanContent rest txt kids
end

/-- Role-based exclusion test shared by the two Text Flattener variants:
the expression span.role ? skipRoles.has(span.role) : false. -/
def skipByRole (role : Option String) (skipRoles : List String) : Bool :=
  match role with
  | some r => !r.data.isEmpty && skipRoles.contains r
  | none => false

mutual
/-- The Text Flattener flattenSpanText of the source: skips the own text
and the children when the role of the node is in the exclusion set, and
always appends the tail. -/
def flattenSpanText : SpanNode → List String → String
  | .mk t _ _ r _ _ _ ch tl, skipRoles =>
      (if skipByRole r skipRoles then "" else t ++ flattenSpanTextList ch skipRoles) ++ tl

/-- Flattening of a child list, children in document order. -/
def flattenSpanTextList : List SpanNode → List String → String
  | [], _ => ""
  | c :: rest, skipRoles => flattenSpanText c skipRoles ++ flattenSpanTextList rest skipRoles
end

/-- The Text Flattener flattenSpanInnerText of the source: as
flattenSpanText but without the own tail. -/
def flattenSpanInnerText (span : SpanNode) (skipRoles : List String) : String :=
  if skipByRole span.role skipRoles then ""
  else span.text ++ flattenSpanTextList span.children skipRoles

mutual
/-- collectRubyTextSpans of the source: all descendants (the node itself
included) whose ruby attribute equals text, in document order. -/
def collectRubyTextSpans : SpanNode → List SpanNode
  | .mk t b e r lg eb rb ch tl =>
      (if rb == some "text" then [SpanNode.mk t b e r lg eb rb ch tl] else []) ++
        collectRubyTextSpansList ch

/-- Ruby text collection over a child list. -/
def collectRubyTextSpansList : List SpanNode → List SpanNode
  | [] => []
  | c :: rest => collectRubyTextSpans c ++ collectRubyTextSpansList rest
end

mutual
/-- DOM textContent of a node: concatenation of all descendant text. -/
def textContent : XNode → String
  | .text s => s
  | .elem _ _ ch => textContentList ch

/-- DOM textContent over a node list. -/
def textContentList : List XNode → String
  | [] => ""
  | n :: rest => textContent n ++ textContentList rest
end

mutual
/-- Whether a node has a descendant element with local name span; embeds
the check textEl.querySelector("span") of the source. -/
def hasSpanNode : XNode → Bool
  | .text _ => false
  | .elem _ _ ch => hasSpanList ch

/-- Descendant span search over a node list. -/
def hasSpanList : List XNode → Bool
  | [] => false
  | n :: rest =>
      (match n with
       | .elem tag _ _ => localNameOfTag tag == "span"
       | .text _ => false) || hasSpanNode n || hasSpanList rest
end

/-- The word record of the data model (interface LyricWordBase). -/
structure LyricWordBase where
  word : String
  startTime : Time
  endTime : Time
deriving DecidableEq

/-- The word record of the data model (interface LyricWord); the external
unique id is omitted. -/
structure LyricWord where
  word : String
  startTime : Time
  endTime : Time
  obscene : Bool
  emptyBeat : Time
  romanWord : String
  ruby : Option (List LyricWordBase) := none
deriving DecidableEq

/-- The line record of the data model (interface LyricLine); the external
unique id is omitted. -/
structure LyricLine where
  words : List LyricWord
  translatedLyric : String
  romanLyric : String
  isBG : Bool
  isDuet : Bool
  startTime : Time
  endTime : Time
  ignoreSync : Bool
deriving DecidableEq

/-- The transient per-word romanization record (interface RomanWord). -/
structure RomanWord where
  startTime : Time
  endTime : Time
  text : String
deriving DecidableEq

/-- Main and background text of one metadata entry (interface
LineMetadata). -/
structure LineMetadata where
  main : String
  bg : String
deriving DecidableEq

/-- Main and background word pools of one word-level romanization entry
(interface WordRomanMetadata). -/
structure WordRomanMetadata where
  main : List RomanWord
  bg : List RomanWord
deriving DecidableEq

/-- The external functions consumed by the parser: the Timespan Codec
parseTimespan, the JavaScript Number conversion applied to the empty-beat
attribute, and the DOM innerHTML serializer. -/
structure JsEnv where
  pt : String → Time
  num : String → Time
  innerHTML : XNode → String

/-- The conditional expression attr ? parseTimespan(attr) : fallback. -/
def timeOfAttr (pt : String → Time) (o : Option String) (fallback : Time) : Time :=
  match o with
  | some s => if s.data.isEmpty then fallback else pt s
  | none => fallback

/-- The conditional expression attr ? parseTimespan(attr) : null. -/
def timeOfAttrOpt (pt : String → Time) (o : Option String) : Option Time :=
  match o with
  | some s => if s.data.isEmpty then none else some (pt s)
  | none => none

/-- computeWordTiming of the source: minimum start and maximum end over the
words with non-whitespace text, the infinite minimum seed collapsed to 0. -/
def computeWordTiming (words : List LyricWordBase) : Time × Time :=
  let filtered := words.filter (fun v => wordNonWS v.word)
  let start := filtered.foldl (fun pv cv => min pv cv.startTime) ⊤
  let stop := filtered.foldl (fun pv cv => max pv cv.endTime) 0
  (if start == ⊤ then 0 else start, stop)

/-- The role exclusion set used by the Word Builder. -/
def skipRolesTR : List String := ["x-translation", "x-roman"]

/-- The Word Builder createWordFromSpanElement of the source. A ruby
container is decomposed into base text, ruby segments and derived timing;
any other element without truthy begin and end attributes yields none; the
remaining elements become plain timed words. The empty-beat and obscene
attributes are read from the element itself in both produced shapes. -/
def createWordFromSpanElement (env : JsEnv) (wordEl : XNode) : Option LyricWord :=
  match wordEl with
  | .text _ => none
  | .elem _ attrs _ =>
      let beginA := getAttr attrs "begin"
      let endA := getAttr attrs "end"
      let spanNode := parseSpanNode wordEl
      if spanNode.ruby == some "container" then
        let baseSpan := spanNode.children.find? (fun c => c.ruby == some "base")
        let baseText :=
          match baseSpan with
          | some b => flattenSpanInnerText b skipRolesTR
          | none => flattenSpanInnerText spanNode skipRolesTR
        let rubyTextSpans := collectRubyTextSpans spanNode
        let containerStart := timeOfAttrOpt env.pt beginA
        let containerEnd := timeOfAttrOpt env.pt endA
        let rubyWords : List LyricWordBase := rubyTextSpans.map (fun rubySpan =>
          { word := flattenSpanInnerText rubySpan skipRolesTR
            startTime := timeOfAttr env.pt rubySpan.beginAttr (containerStart.getD 0)
            endTime := timeOfAttr env.pt rubySpan.endAttr (containerEnd.getD 0) })
        let timing := computeWordTiming rubyWords
        let ebA := getAttr attrs "empty-beat"
        let word : LyricWord :=
          { word := baseText
            startTime := containerStart.getD timing.1
            endTime := containerEnd.getD timing.2
            obscene := getAttr attrs "obscene" == some "true"
            emptyBeat := if optTruthy ebA then env.num (ebA.getD "") else 0
            romanWord := ""
            ruby := if rubyWords.length > 0 then some rubyWords else none }
        some word
      else if !optTruthy beginA || !optTruthy endA then
        none
      else
        let ebA := getAttr attrs "empty-beat"
        let word : LyricWord :=
          { word := flattenSpanInnerText spanNode skipRolesTR
            startTime := env.pt (beginA.getD "")
            endTime := env.pt (endA.getD "")
            obscene := getAttr attrs "obscene" == some "true"
            emptyBeat := if optTruthy ebA then env.num (ebA.getD "") else 0
            romanWord := ""
            ruby := none }
        some word

/-- Lookup in a JavaScript Map embedded as an association list with unique
keys (Map.prototype.get). -/
def lookupKey {α : Type} (m : List (String × α)) (k : String) : Option α :=
  (m.find? (fun p => p.1 == k)).map (fun p => p.2)

/-- Insertion into a JavaScript Map (Map.prototype.set): replaces the value
of an existing key in place, otherwise appends in insertion order. -/
def setKey {α : Type} (m : List (String × α)) (k : String) (v : α) : List (String × α) :=
  if m.any (fun p => p.1 == k) then
    m.map (fun p => if p.1 == k then (k, v) else p)
  else
    m ++ [(k, v)]

/-- Deletion from a JavaScript Map (Map.prototype.delete). -/
def eraseKey {α : Type} (m : List (String × α)) (k : String) : List (String × α) :=
  m.filter (fun p => !(p.1 == k))

/-- The background text normalization of the metadata extractors: trim,
strip one leading fullwidth or ASCII opening parenthesis, strip one
trailing closing parenthesis, trim again. -/
def stripParenWrap (s : String) : String :=
  let t := jsTrim s
  let t2 :=
    match t.data with
    | c :: rest => if c == '（' || c == '(' then String.mk rest else t
    | [] => t
  let t3 :=
    match t2.data.getLast? with
    | some c => if c == ')' || c == '）' then String.mk t2.data.dropLast else t2
    | none => t2
  jsTrim t3

/-- Child walk of one translation text element: direct text nodes
accumulate into the main text, element children whose ttm:role attribute
equals x-bg accumulate their textContent into the background text. -/
def transTextOfChildren (children : List XNode) : String × String :=
  children.foldl (fun acc n =>
    match n with
    | .text s => (acc.1 ++ s, acc.2)
    | .elem _ cattrs _ =>
        if getAttribute cattrs "ttm:role" == some "x-bg" then
          (acc.1, acc.2 ++ textContent n)
        else acc) ("", "")

/-- One step of the plain translations extractor: read the for key, skip a
falsy key, extract and normalize main and background text, and store the
entry when either is non empty. -/
def translationsStep (m : List (String × LineMetadata)) (textEl : XNode) :
    List (String × LineMetadata) :=
  match textEl with
  | .text _ => m
  | .elem _ attrs children =>
      let key := getAttribute attrs "for"
      if !optTruthy key then m
      else
        let mb := transTextOfChildren children
        let mn := jsTrim mb.1
        let bg := stripParenWrap mb.2
        if !mn.data.isEmpty || !bg.data.isEmpty then
          setKey m (key.getD "") { main := mn, bg := bg }
        else m

/-- The plain translations map built from the selected text elements. -/
def buildTranslations (textEls : List XNode) : List (String × LineMetadata) :=
  textEls.foldl translationsStep []

/-- One step of the timed translations extractor over the pair of maps
(plain, timed): the same extraction, kept only when the element has a
descendant span, in which case the plain entry of the key is deleted. -/
def timedTranslationsStep
    (acc : List (String × LineMetadata) × List (String × LineMetadata))
    (textEl : XNode) :
    List (String × LineMetadata) × List (String × LineMetadata) :=
  match textEl with
  | .text _ => acc
  | .elem _ attrs children =>
      let key := getAttribute attrs "for"
      if !optTruthy key then acc
      else
        let mb := transTextOfChildren children
        let mn := jsTrim mb.1
        let bg := stripParenWrap mb.2
        if (!mn.data.isEmpty || !bg.data.isEmpty) && hasSpanList children then
          (eraseKey acc.1 (key.getD ""), setKey acc.2 (key.getD "") { main := mn, bg := bg })
        else acc

/-- Both translation maps of parseLyric: the plain pass runs first over all
selected text elements, then the timed pass runs over the same elements,
deleting from the plain map every key for which it keeps a timed entry. -/
def buildTranslationMaps (textEls : List XNode) :
    List (String × LineMetadata) × List (String × LineMetadata) :=
  textEls.foldl timedTranslationsStep (buildTranslations textEls, [])

/-- The read-only context captured by parseLineElement: the three line
metadata maps and the primary agent id. -/
structure ParseCtx where
  itunesTranslations : List (String × LineMetadata)
  itunesTimedTranslations : List (String × LineMetadata)
  itunesLineRomanizations : List (String × LineMetadata)
  mainAgentId : String

/-- The mutable state shared by all parseLineElement invocations of one
parse call: the output line sequence and the word romanization map. -/
structure PState where
  lyricLines : List LyricLine
  itunesWordRomanizations : List (String × WordRomanMetadata)
deriving DecidableEq

/-- The loop state of the child iteration of parseLineElement: the shared
state, the line under construction, the remaining local romanization pool,
and the background flag haveBg. -/
structure LineLoop where
  st : PState
  line : LyricLine
  avail : List RomanWord
  haveBg : Bool
deriving DecidableEq

/-- Resolution of translatedLyric from the metadata maps: the timed map
wins over the plain map, the empty string is the final fallback, and the
background flag selects the field. -/
def resolveLineTranslated (ctx : ParseCtx) (isBG : Bool) (key : String) : String :=
  match lookupKey ctx.itunesTimedTranslations key with
  | some md => if isBG then md.bg else md.main
  | none =>
      match lookupKey ctx.itunesTranslations key with
      | some md => if isBG then md.bg else md.main
      | none => ""

/-- Resolution of romanLyric from the line romanization map. -/
def resolveLineRoman (ctx : ParseCtx) (isBG : Bool) (key : String) : String :=
  match lookupKey ctx.itunesLineRomanizations key with
  | some md => if isBG then md.bg else md.main
  | none => ""

/-- The metadata key of a line: a background line reuses the key of its
parent, a main line reads its own itunes:key attribute. -/
def lineKey (attrs : List XAttr) (isBG : Bool) (parentItunesKey : Option String) :
    Option String :=
  if isBG then parentItunesKey else getAttribute attrs "itunes:key"

/-- Predicate for a matching romanization pool entry: both timings equal
the timings of the word. -/
def romanMatches (w : LyricWord) (r : RomanWord) : Bool :=
  r.startTime == w.startTime && r.endTime == w.endTime

/-- Fallback record used only to read a list entry at an index that is
known to be in bounds. -/
def defaultRoman : RomanWord := { startTime := 0, endTime := 0, text := "" }

/-- The Word-Romanization Matching step of the source: when the pool is non
empty, find the first entry whose timings equal those of the word, assign
its text to romanWord and remove it from the pool; otherwise leave the word
and the pool unchanged. -/
def matchRoman (avail : List RomanWord) (w : LyricWord) : LyricWord × List RomanWord :=
  if avail.length > 0 then
    match avail.findIdx? (romanMatches w) with
    | some i => ({ w with romanWord := (avail.getD i defaultRoman).text }, avail.eraseIdx i)
    | none => (w, avail)
  else (w, avail)

/-- The word-list part of the background parenthesis surgery of
parseLineElement: strip one leading opening parenthesis from the first
word, removing the word when it becomes empty, then symmetrically one
trailing closing parenthesis from the last word. -/
def bgParenTrimWords (ws : List LyricWord) : List LyricWord :=
  let ws1 :=
    match ws with
    | [] => ([] : List LyricWord)
    | fw :: rest =>
        match fw.word.data with
        | c :: cs =>
            if c == '（' || c == '(' then
              if cs.isEmpty then rest else { fw with word := String.mk cs } :: rest
            else fw :: rest
        | [] => fw :: rest
  let ws2 :=
    match ws1.getLast? with
    | none => ws1
    | some lw =>
        match lw.word.data.getLast? with
        | some c =>
            if c == ')' || c == '）' then
              let lw2 := { lw with word := String.mk lw.word.data.dropLast }
              if lw2.word.data.isEmpty then ws1.dropLast else ws1.dropLast ++ [lw2]
            else ws1
        | none => ws1
  ws2

/-- The background parenthesis surgery of parseLineElement, acting only on
the words of the line; the times set before it stand unchanged. -/
def bgParenTrim (line : LyricLine) : LyricLine :=
  { line with words := bgParenTrimWords line.words }

/-- The deferred timing derivation of parseLineElement: minimum start and
maximum end over the words with non-whitespace text, with the infinite and
zero fold seeds left as they are when no such word exists. -/
def recomputeLineTiming (l : LyricLine) : LyricLine :=
  { l with
    startTime := (l.words.filter (fun w => wordNonWS w.word)).foldl
      (fun pv cv => min pv cv.startTime) ⊤
    endTime := (l.words.filter (fun w => wordNonWS w.word)).foldl
      (fun pv cv => max pv cv.endTime) 0 }

/-- The two steps of parseLineElement that follow the child loop: recompute
the timing when it was deferred, then apply the background parenthesis
surgery. -/
def finishLine (bothTimes : Bool) (l : LyricLine) : LyricLine :=
  let l2 := if bothTimes then l else recomputeLineTiming l
  if l2.isBG then bgParenTrim l2 else l2

/-- The line record and loop state as they stand before the child loop of
parseLineElement: timing from explicit truthy begin and end attributes (0
placeholders otherwise), duet flag from the ttm:agent attribute for a main
line and inherited for a background line, metadata resolution for a truthy
key, and the local copy of the word romanization pool of the key. -/
def initLineLoop (env : JsEnv) (ctx : ParseCtx) (st : PState) (attrs : List XAttr)
    (isBG isDuet : Bool) (parentItunesKey : Option String) : LineLoop :=
  let startTimeAttr := getAttribute attrs "begin"
  let endTimeAttr := getAttribute attrs "end"
  let bothTimes := optTruthy startTimeAttr && optTruthy endTimeAttr
  let parsedStartTime : Time := if bothTimes then env.pt (startTimeAttr.getD "") else 0
  let parsedEndTime : Time := if bothTimes then env.pt (endTimeAttr.getD "") else 0
  let agentAttr := getAttribute attrs "ttm:agent"
  let itunesKey := lineKey attrs isBG parentItunesKey
  let romanWordData :=
    if optTruthy itunesKey then lookupKey st.itunesWordRomanizations (itunesKey.getD "")
    else none
  let sourceRomanList :=
    if isBG then romanWordData.map (fun d => d.bg) else romanWordData.map (fun d => d.main)
  let line0 : LyricLine :=
    { words := []
      translatedLyric := ""
      romanLyric := ""
      isBG := isBG
      isDuet :=
        if isBG then isDuet
        else optTruthy agentAttr && agentAttr.getD "" != ctx.mainAgentId
      startTime := parsedStartTime
      endTime := parsedEndTime
      ignoreSync := false }
  let line1 :=
    if optTruthy itunesKey then
      { line0 with
        translatedLyric := resolveLineTranslated ctx isBG (itunesKey.getD "")
        romanLyric := resolveLineRoman ctx isBG (itunesKey.getD "") }
    else line0
  { st := st, line := line1, avail := sourceRomanList.getD [], haveBg := false }

mutual
/-- The Line Builder parseLineElement of the source, with the shared
mutable state (the output line sequence and the word romanization map)
passed explicitly. The child loop runs via processLineChildren; afterwards
deferred timing and background surgery are applied, and the finished line
is appended — behind the just-appended background line, when one was
produced by recursion, via the pop, push, push-back discipline. The source
only invokes the function on element nodes; a text node returns the state
unchanged. -/
def parseLineElement (env : JsEnv) (ctx : ParseCtx) (st : PState) (lineEl : XNode)
    (isBG isDuet : Bool) (parentItunesKey : Option String) : PState :=
  match lineEl with
  | .text _ => st
  | .elem _ attrs children =>
      let startTimeAttr := getAttribute attrs "begin"
      let endTimeAttr := getAttribute attrs "end"
      let itunesKey := lineKey attrs isBG parentItunesKey
      let ll := processLineChildren env ctx itunesKey
        (initLineLoop env ctx st attrs isBG isDuet parentItunesKey) children
      let line3 := finishLine (optTruthy startTimeAttr && optTruthy endTimeAttr) ll.line
      if ll.haveBg then
        let bgLine := ll.st.lyricLines.getLast?
        let rest := ll.st.lyricLines.dropLast
        { ll.st with
          lyricLines :=
            match bgLine with
            | some b => rest ++ [line3, b]
            | none => rest ++ [line3] }
      else
        { ll.st with lyricLines := ll.st.lyricLines ++ [line3] }

/-- The child loop of parseLineElement. A text node becomes a pseudo word
timed by the current line timing when its text is non whitespace. An
element named span with a truthy ttm:role attribute is dispatched on the
role: x-bg recurses into parseLineElement with the background flag set,
x-translation and x-roman fill the respective field from the inner markup
when it is still empty. Every other element goes through the Word Builder;
a null result is skipped, otherwise the word is matched against the local
romanization pool and appended. -/
def processLineChildren (env : JsEnv) (ctx : ParseCtx) (itunesKey : Option String)
    (ll : LineLoop) : List XNode → LineLoop
  | [] => ll
  | n :: rest =>
      match n with
      | .text s =>
          let w : LyricWord :=
            { word := s
              startTime := if wordNonWS s then ll.line.startTime else 0
              endTime := if wordNonWS s then ll.line.endTime else 0
              obscene := false
              emptyBeat := 0
              romanWord := ""
              ruby := none }
          processLineChildren env ctx itunesKey
            { ll with line := { ll.line with words := ll.line.words ++ [w] } } rest
      | .elem tag cattrs _ =>
          let role := getAttribute cattrs "ttm:role"
          if tag == "span" && optTruthy role then
            if role == some "x-bg" then
              let st2 := parseLineElement env ctx ll.st n true ll.line.isDuet itunesKey
              processLineChildren env ctx itunesKey
                { ll with st := st2, haveBg := true } rest
            else if role == some "x-translation" then
              let ll2 :=
                if ll.line.translatedLyric.data.isEmpty then
                  { ll with line := { ll.line with translatedLyric := env.innerHTML n } }
                else ll
              processLineChildren env ctx itunesKey ll2 rest
            else if role == some "x-roman" then
              let ll2 :=
                if ll.line.romanLyric.data.isEmpty then
                  { ll with line := { ll.line with romanLyric := env.innerHTML n } }
                else ll
              processLineChildren env ctx itunesKey ll2 rest
            else
              processLineChildren env ctx itunesKey ll rest
          else
            match createWordFromSpanElement env n with
            | none => processLineChildren env ctx itunesKey ll rest
            | some w =>
                let matched := matchRoman ll.avail w
                processLineChildren env ctx itunesKey
                  { ll with
                    avail := matched.2
                    line := { ll.line with words := ll.line.words ++ [matched.1] } } rest
end

/-! Helper lemmas about the child loop of the Line Builder. -/

/-- A child node that triggers the background recursion of the Line
Builder: an element named span whose ttm:role attribute equals x-bg. -/
def isBgRoleSpan : XNode → Bool
  | .text _ => false
  | .elem tag cattrs _ => tag == "span" && (getAttribute cattrs "ttm:role" == some "x-bg")

/-- The child loop never changes the background flag, the duet flag or the
provisional timing of the line under construction. -/
theorem processLineChildren_line_inv (env : JsEnv) (ctx : ParseCtx) (key : Option String) :
    ∀ (ns : List XNode) (ll : LineLoop),
      (processLineChildren env ctx key ll ns).line.isBG = ll.line.isBG ∧
      (processLineChildren env ctx key ll ns).line.isDuet = ll.line.isDuet ∧
      (processLineChildren env ctx key ll ns).line.startTime = ll.line.startTime ∧
      (processLineChildren env ctx key ll ns).line.endTime = ll.line.endTime := by
  intro ns
  induction ns with
  | nil => intro ll; simp [processLineChildren]
  | cons n rest ih =>
      intro ll
      cases n with
      | text s => exact ih _
      | elem tag cattrs ch =>
          simp only [processLineChildren]
          repeat' split
          all_goals exact ih _

/-- When no child is a background span, the child loop leaves the shared
state and the background flag unchanged. -/
theorem processLineChildren_st_inv (env : JsEnv) (ctx : ParseCtx) (key : Option String) :
    ∀ (ns : List XNode) (ll : LineLoop), (∀ n ∈ ns, isBgRoleSpan n = false) →
      (processLineChildren env ctx key ll ns).st = ll.st ∧
      (processLineChildren env ctx key ll ns).haveBg = ll.haveBg := by
  intro ns
  induction ns with
  | nil => intro ll _; simp [processLineChildren]
  | cons n rest ih =>
      intro ll h
      have hrest : ∀ m ∈ rest, isBgRoleSpan m = false :=
        fun m hm => h m (List.mem_cons_of_mem _ hm)
      cases n with
      | text s => exact ih _ hrest
      | elem tag cattrs ch =>
          have hhd := h _ (List.mem_cons_self _ _)
          simp only [isBgRoleSpan, Bool.and_eq_false_iff] at hhd
          simp only [processLineChildren]
          split
          · split
            · rename_i h1 h2
              exfalso
              rcases hhd with hhd | hhd
              · simp only [Bool.and_eq_true] at h1
                simp [h1.1] at hhd
              · simp [h2] at hhd
            · repeat' split
              all_goals exact ih _ hrest
          · split
            all_goals exact ih _ hrest

/-- Processing a concatenation of child lists is processing the first list
and then the second. -/
theorem processLineChildren_append (env : JsEnv) (ctx : ParseCtx) (key : Option String) :
    ∀ (xs ys : List XNode) (ll : LineLoop),
      processLineChildren env ctx key ll (xs ++ ys) =
        processLineChildren env ctx key (processLineChildren env ctx key ll xs) ys := by
  intro xs
  induction xs with
  | nil => intro ys ll; simp [processLineChildren]
  | cons n rest ih =>
      intro ys ll
      cases n with
      | text s =>
          simp only [List.cons_append, processLineChildren]
          exact ih _ _
      | elem tag cattrs ch =>
          simp only [List.cons_append, processLineChildren]
          repeat' split
          all_goals exact ih _ _

theorem bgParenTrim_isBG (l : LyricLine) : (bgParenTrim l).isBG = l.isBG := rfl

theorem bgParenTrim_startTime (l : LyricLine) :
    (bgParenTrim l).startTime = l.startTime := rfl

theorem bgParenTrim_endTime (l : LyricLine) :
    (bgParenTrim l).endTime = l.endTime := rfl

theorem recomputeLineTiming_isBG (l : LyricLine) :
    (recomputeLineTiming l).isBG = l.isBG := rfl

/-- With deferred timing, finishLine is the timing derivation followed, on
a background line, by the parenthesis surgery. -/
theorem finishLine_false (l : LyricLine) :
    finishLine false l =
      if l.isBG then bgParenTrim (recomputeLineTiming l) else recomputeLineTiming l := by
  simp only [finishLine, Bool.false_eq_true, if_false, recomputeLineTiming_isBG]

/-- finishLine never changes the background flag. -/
theorem finishLine_isBG (b : Bool) (l : LyricLine) : (finishLine b l).isBG = l.isBG := by
  simp only [finishLine]
  split <;> split <;> rfl

/-- On a line that is not a background line, finishLine is the deferred
timing derivation alone. -/
theorem finishLine_not_bg (b : Bool) (l : LyricLine) (h : l.isBG = false) :
    finishLine b l = if b then l else recomputeLineTiming l := by
  simp only [finishLine]
  split
  · simp [h]
  · simp [recomputeLineTiming_isBG, h]

theorem initLineLoop_st (env : JsEnv) (ctx : ParseCtx) (st : PState) (attrs : List XAttr)
    (isBG isDuet : Bool) (key : Option String) :
    (initLineLoop env ctx st attrs isBG isDuet key).st = st := rfl

theorem initLineLoop_haveBg (env : JsEnv) (ctx : ParseCtx) (st : PState) (attrs : List XAttr)
    (isBG isDuet : Bool) (key : Option String) :
    (initLineLoop env ctx st attrs isBG isDuet key).haveBg = false := rfl

/-- The background flag of the line built by initLineLoop is the background
flag of the invocation. -/
theorem initLineLoop_isBG (env : JsEnv) (ctx : ParseCtx) (st : PState) (attrs : List XAttr)
    (isBG isDuet : Bool) (key : Option String) :
    (initLineLoop env ctx st attrs isBG isDuet key).line.isBG = isBG := by
  simp only [initLineLoop]
  split <;> rfl

/-- The provisional start time set by initLineLoop. -/
theorem initLineLoop_startTime (env : JsEnv) (ctx : ParseCtx) (st : PState)
    (attrs : List XAttr) (isBG isDuet : Bool) (key : Option String) :
    (initLineLoop env ctx st attrs isBG isDuet key).line.startTime =
      (if optTruthy (getAttribute attrs "begin") && optTruthy (getAttribute attrs "end")
       then env.pt ((getAttribute attrs "begin").getD "") else 0) := by
  simp only [initLineLoop]
  split <;> rfl

/-- The provisional end time set by initLineLoop. -/
theorem initLineLoop_endTime (env : JsEnv) (ctx : ParseCtx) (st : PState)
    (attrs : List XAttr) (isBG isDuet : Bool) (key : Option String) :
    (initLineLoop env ctx st attrs isBG isDuet key).line.endTime =
      (if optTruthy (getAttribute attrs "begin") && optTruthy (getAttribute attrs "end")
       then env.pt ((getAttribute attrs "end").getD "") else 0) := by
  simp only [initLineLoop]
  split <;> rfl

/-- On an element without background children, the Line Builder appends
exactly one finished line to the output sequence and changes nothing
else. -/
theorem parseLineElement_noBg (env : JsEnv) (ctx : ParseCtx) (st : PState)
    (tag : String) (attrs : List XAttr) (children : List XNode)
    (isBG isDuet : Bool) (key : Option String)
    (h : ∀ n ∈ children, isBgRoleSpan n = false) :
    parseLineElement env ctx st (.elem tag attrs children) isBG isDuet key =
      { st with lyricLines := st.lyricLines ++
        [finishLine (optTruthy (getAttribute attrs "begin") &&
            optTruthy (getAttribute attrs "end"))
          (processLineChildren env ctx (lineKey attrs isBG key)
            (initLineLoop env ctx st attrs isBG isDuet key) children).line] } := by
  have hst := processLineChildren_st_inv env ctx (lineKey attrs isBG key) children
    (initLineLoop env ctx st attrs isBG isDuet key) h
  simp only [parseLineElement]
  rw [if_neg]
  · rw [hst.1, initLineLoop_st]
  · rw [hst.2, initLineLoop_haveBg]
    simp

mutual
/-- Any invocation of the Line Builder returns the word romanization map
unchanged: the source never writes to it, consumption happens on the local
copy made by initLineLoop. -/
theorem parseLineElement_wordRom (env : JsEnv) (ctx : ParseCtx) (st : PState)
    (lineEl : XNode) (isBG isDuet : Bool) (key : Option String) :
    (parseLineElement env ctx st lineEl isBG isDuet key).itunesWordRomanizations =
      st.itunesWordRomanizations :=
  match lineEl with
  | .text _ => rfl
  | .elem tag attrs children => by
      have hl := processLineChildren_wordRom env ctx (lineKey attrs isBG key)
        (initLineLoop env ctx st attrs isBG isDuet key) children
      simp only [parseLineElement]
      split
      · split
        · exact hl
        · exact hl
      · exact hl

/-- The child loop of the Line Builder returns the word romanization map
unchanged. -/
theorem processLineChildren_wordRom (env : JsEnv) (ctx : ParseCtx) (key : Option String)
    (ll : LineLoop) (ns : List XNode) :
    ((processLineChildren env ctx key ll ns).st).itunesWordRomanizations =
      ll.st.itunesWordRomanizations :=
  match ns with
  | [] => rfl
  | n :: rest => by
      cases n with
      | text s =>
          exact processLineChildren_wordRom env ctx key _ rest
      | elem tag cattrs ch =>
          simp only [processLineChildren]
          repeat' split
          case _ =>
            rw [processLineChildren_wordRom env ctx key _ rest]
            exact parseLineElement_wordRom env ctx ll.st (XNode.elem tag cattrs ch)
              true ll.line.isDuet key
          all_goals exact processLineChildren_wordRom env ctx key _ rest
end

/-- The local romanization pool a Line Builder invocation starts from,
read from the shared map by initLineLoop. -/
theorem initLineLoop_avail (env : JsEnv) (ctx : ParseCtx) (st : PState) (attrs : List XAttr)
    (isBG isDuet : Bool) (key : Option String) :
    (initLineLoop env ctx st attrs isBG isDuet key).avail =
      ((if optTruthy (lineKey attrs isBG key) then
          lookupKey st.itunesWordRomanizations ((lineKey attrs isBG key).getD "")
        else none).map (fun d => if isBG then d.bg else d.main)).getD [] := by
  simp only [initLineLoop]
  cases isBG <;> simp

/-- A Line Builder invocation on an element with explicit non empty begin
and end attributes and no background children appends exactly one line,
timed by the decoded attribute values. -/
theorem parseLineElement_explicit_times (env : JsEnv) (ctx : ParseCtx) (st : PState)
    (tag : String) (attrs : List XAttr) (children : List XNode)
    (isDuet : Bool) (key : Option String) (b e : String)
    (hb : getAttribute attrs "begin" = some b) (hbne : b.data ≠ [])
    (he : getAttribute attrs "end" = some e) (hene : e.data ≠ [])
    (hNoBg : ∀ n ∈ children, isBgRoleSpan n = false) :
    ∃ ln, (parseLineElement env ctx st (.elem tag attrs children) false isDuet key).lyricLines
        = st.lyricLines ++ [ln] ∧ ln.startTime = env.pt b ∧ ln.endTime = env.pt e := by
  have htb : optTruthy (getAttribute attrs "begin") = true := by
    rw [hb]
    simp only [optTruthy, Bool.not_eq_true']
    cases hd : b.data with
    | nil => exact absurd hd hbne
    | cons c cs => rfl
  have hte : optTruthy (getAttribute attrs "end") = true := by
    rw [he]
    simp only [optTruthy, Bool.not_eq_true']
    cases hd : e.data with
    | nil => exact absurd hd hene
    | cons c cs => rfl
  rw [parseLineElement_noBg env ctx st tag attrs children false isDuet key hNoBg]
  have hinv := processLineChildren_line_inv env ctx (lineKey attrs false key) children
    (initLineLoop env ctx st attrs false isDuet key)
  have hisbg : (processLineChildren env ctx (lineKey attrs false key)
      (initLineLoop env ctx st attrs false isDuet key) children).line.isBG = false := by
    rw [hinv.1, initLineLoop_isBG]
  refine ⟨_, rfl, ?_, ?_⟩
  · rw [finishLine_not_bg _ _ hisbg, htb, hte]
    simp only [Bool.and_self, if_true]
    rw [hinv.2.2.1, initLineLoop_startTime, htb, hte, hb]
    rfl
  · rw [finishLine_not_bg _ _ hisbg, htb, hte]
    simp only [Bool.and_self, if_true]
    rw [hinv.2.2.2, initLineLoop_endTime, htb, hte, he]
    rfl

/-! Shared concrete instances used to evaluate the definitions. -/

/-- An environment whose Timespan Codec decodes every string to 0. -/
def envNull : JsEnv := { pt := fun _ => 0, num := fun _ => 0, innerHTML := fun _ => "" }

/-- A Timespan Codec for the concrete clock times used in the examples. -/
def ptDemo : String → Time := fun s =>
  if s == "1.0s" then 1000
  else if s == "1.5s" then 1500
  else if s == "2.0s" then 2000
  else if s == "3.0s" then 3000
  else if s == "4.0s" then 4000
  else if s == "0.5s" then 500
  else if s == "0.9s" then 900
  else 0

/-- An environment around the demonstration codec. -/
def envDemo : JsEnv := { pt := ptDemo, num := fun _ => 0, innerHTML := fun _ => "" }

/-- An empty metadata context. -/
def ctxEmpty : ParseCtx :=
  { itunesTranslations := [], itunesTimedTranslations := [],
    itunesLineRomanizations := [], mainAgentId := "v1" }

/-- An empty shared state. -/
def stEmpty : PState := { lyricLines := [], itunesWordRomanizations := [] }

/-- C1 (counterexample). A line element lacking begin and end attributes
whose only word is whitespace: the claim predicts startTime = endTime = 0,
but the source leaves the infinite seed of the minimum fold in startTime,
because the deferred timing derivation of parseLineElement, unlike
computeWordTiming, never collapses it back to 0. -/
theorem C1_counterexample :
    (parseLineElement envNull ctxEmpty stEmpty
        (XNode.elem "p" [] [XNode.text " "]) false false none).lyricLines.map
      (fun l => (l.startTime, l.endTime)) = [((⊤ : Time), (0 : Time))] ∧
    ((⊤ : Time) ≠ (0 : Time)) := by
  constructor
  · decide
  · decide

/-- C1 (amended). For any line element lacking an explicit begin or end
attribute — background lines included — the output line carries the
minimum start and the maximum end over the words assembled for the line
whose text is non-whitespace, computed before the background parenthesis
surgery: on a line that is not a background line the assembled words are
exactly the output words, while a background line may afterwards lose or
shorten its first and last word without the times being recomputed. When
no assembled word has non-whitespace text, startTime stays the infinite
fold seed and endTime 0, not 0 and 0 as the claim stated. The element is
assumed to have no background children so that exactly one line is
appended. -/
theorem C1_line_timing_from_words (env : JsEnv) (ctx : ParseCtx) (st : PState)
    (tag : String) (attrs : List XAttr) (children : List XNode)
    (isBG isDuet : Bool) (key : Option String)
    (hNoTimes : (optTruthy (getAttribute attrs "begin") &&
        optTruthy (getAttribute attrs "end")) = false)
    (hNoBg : ∀ n ∈ children, isBgRoleSpan n = false) :
    ∃ ln, (parseLineElement env ctx st (.elem tag attrs children) isBG isDuet key).lyricLines
        = st.lyricLines ++ [ln] ∧
      ln.startTime = (((processLineChildren env ctx (lineKey attrs isBG key)
          (initLineLoop env ctx st attrs isBG isDuet key) children).line.words.filter
          (fun w => wordNonWS w.word)).foldl (fun pv cv => min pv cv.startTime) ⊤) ∧
      ln.endTime = (((processLineChildren env ctx (lineKey attrs isBG key)
          (initLineLoop env ctx st attrs isBG isDuet key) children).line.words.filter
          (fun w => wordNonWS w.word)).foldl (fun pv cv => max pv cv.endTime) 0) ∧
      ln.words = (if isBG then
          bgParenTrimWords (processLineChildren env ctx (lineKey attrs isBG key)
            (initLineLoop env ctx st attrs isBG isDuet key) children).line.words
        else (processLineChildren env ctx (lineKey attrs isBG key)
            (initLineLoop env ctx st attrs isBG isDuet key) children).line.words) ∧
      (((processLineChildren env ctx (lineKey attrs isBG key)
          (initLineLoop env ctx st attrs isBG isDuet key) children).line.words.filter
          (fun w => wordNonWS w.word)) = [] → ln.startTime = ⊤ ∧ ln.endTime = 0) ∧
      (isBG = false →
        ln.startTime = ((ln.words.filter (fun w => wordNonWS w.word)).foldl
          (fun pv cv => min pv cv.startTime) ⊤) ∧
        ln.endTime = ((ln.words.filter (fun w => wordNonWS w.word)).foldl
          (fun pv cv => max pv cv.endTime) 0)) := by
  rw [parseLineElement_noBg env ctx st tag attrs children isBG isDuet key hNoBg]
  have hLbg : (processLineChildren env ctx (lineKey attrs isBG key)
      (initLineLoop env ctx st attrs isBG isDuet key) children).line.isBG = isBG := by
    rw [(processLineChildren_line_inv env ctx (lineKey attrs isBG key) children
      (initLineLoop env ctx st attrs isBG isDuet key)).1, initLineLoop_isBG]
  have hfin : finishLine (optTruthy (getAttribute attrs "begin") &&
        optTruthy (getAttribute attrs "end"))
      (processLineChildren env ctx (lineKey attrs isBG key)
        (initLineLoop env ctx st attrs isBG isDuet key) children).line =
      (if isBG then
        bgParenTrim (recomputeLineTiming (processLineChildren env ctx (lineKey attrs isBG key)
          (initLineLoop env ctx st attrs isBG isDuet key) children).line)
      else recomputeLineTiming (processLineChildren env ctx (lineKey attrs isBG key)
          (initLineLoop env ctx st attrs isBG isDuet key) children).line) := by
    rw [hNoTimes, finishLine_false, hLbg]
  have hstart : (recomputeLineTiming (processLineChildren env ctx (lineKey attrs isBG key)
        (initLineLoop env ctx st attrs isBG isDuet key) children).line).startTime =
      (((processLineChildren env ctx (lineKey attrs isBG key)
        (initLineLoop env ctx st attrs isBG isDuet key) children).line.words.filter
        (fun w => wordNonWS w.word)).foldl (fun pv cv => min pv cv.startTime) ⊤) := rfl
  have hend : (recomputeLineTiming (processLineChildren env ctx (lineKey attrs isBG key)
        (initLineLoop env ctx st attrs isBG isDuet key) children).line).endTime =
      (((processLineChildren env ctx (lineKey attrs isBG key)
        (initLineLoop env ctx st attrs isBG isDuet key) children).line.words.filter
        (fun w => wordNonWS w.word)).foldl (fun pv cv => max pv cv.endTime) 0) := rfl
  refine ⟨_, rfl, ?_⟩
  rw [hfin]
  cases isBG with
  | false =>
      simp only [Bool.false_eq_true, if_false]
      refine ⟨hstart, hend, rfl, fun hf => ⟨?_, ?_⟩, fun _ => ⟨hstart, hend⟩⟩
      · rw [hstart, hf]
        rfl
      · rw [hend, hf]
        rfl
  | true =>
      simp only [eq_self_iff_true, if_true]
      refine ⟨?_, ?_, rfl, fun hf => ⟨?_, ?_⟩, fun h => nomatch h⟩
      · rw [bgParenTrim_startTime]
        exact hstart
      · rw [bgParenTrim_endTime]
        exact hend
      · rw [bgParenTrim_startTime, hstart, hf]
        rfl
      · rw [bgParenTrim_endTime, hend, hf]
        rfl

/-- The children of the C1 witness: a background line whose first word is
an opening parenthesis timed (1000,2000) followed by a word timed
(3000,4000); the deferred fold runs before the parenthesis surgery drops
the first word, so the line keeps startTime 1000 while its output words
begin at 3000. -/
def bgChEx : List XNode :=
  [XNode.elem "span" [XAttr.mk "begin" "1.0s", XAttr.mk "end" "2.0s"] [XNode.text "("],
   XNode.elem "span" [XAttr.mk "begin" "3.0s", XAttr.mk "end" "4.0s"] [XNode.text "Hi"]]

/-- C1 (witness). The amended statement evaluated on a background line
without timing attributes whose first assembled word is a lone opening
parenthesis: the line is timed (1000,4000) from the assembled words while
the surgery leaves only the word Hi in the output. -/
theorem C1_witness :
    ((optTruthy (getAttribute ([] : List XAttr) "begin") &&
        optTruthy (getAttribute ([] : List XAttr) "end")) = false) ∧
    (∀ n ∈ bgChEx, isBgRoleSpan n = false) ∧
    (∃ ln, (parseLineElement envDemo ctxEmpty stEmpty
        (XNode.elem "span" [] bgChEx) true false none).lyricLines
        = stEmpty.lyricLines ++ [ln] ∧
      ln.startTime = (((processLineChildren envDemo ctxEmpty (lineKey [] true none)
          (initLineLoop envDemo ctxEmpty stEmpty [] true false none) bgChEx).line.words.filter
          (fun w => wordNonWS w.word)).foldl (fun pv cv => min pv cv.startTime) ⊤) ∧
      ln.endTime = (((processLineChildren envDemo ctxEmpty (lineKey [] true none)
          (initLineLoop envDemo ctxEmpty stEmpty [] true false none) bgChEx).line.words.filter
          (fun w => wordNonWS w.word)).foldl (fun pv cv => max pv cv.endTime) 0) ∧
      ln.words = (if true then
          bgParenTrimWords (processLineChildren envDemo ctxEmpty (lineKey [] true none)
            (initLineLoop envDemo ctxEmpty stEmpty [] true false none) bgChEx).line.words
        else (processLineChildren envDemo ctxEmpty (lineKey [] true none)
            (initLineLoop envDemo ctxEmpty stEmpty [] true false none) bgChEx).line.words) ∧
      (((processLineChildren envDemo ctxEmpty (lineKey [] true none)
          (initLineLoop envDemo ctxEmpty stEmpty [] true false none) bgChEx).line.words.filter
          (fun w => wordNonWS w.word)) = [] → ln.startTime = ⊤ ∧ ln.endTime = 0) ∧
      (true = false →
        ln.startTime = ((ln.words.filter (fun w => wordNonWS w.word)).foldl
          (fun pv cv => min pv cv.startTime) ⊤) ∧
        ln.endTime = ((ln.words.filter (fun w => wordNonWS w.word)).foldl
          (fun pv cv => max pv cv.endTime) 0))) ∧
    ((parseLineElement envDemo ctxEmpty stEmpty (XNode.elem "span" [] bgChEx)
        true false none).lyricLines.map (fun l => (l.startTime, l.endTime)) =
      [((1000 : Time), (4000 : Time))]) ∧
    ((parseLineElement envDemo ctxEmpty stEmpty (XNode.elem "span" [] bgChEx)
        true false none).lyricLines.map (fun l => l.words.map (fun w => w.word)) =
      [["Hi"]]) :=
  ⟨by decide, by decide,
    C1_line_timing_from_words envDemo ctxEmpty stEmpty "span" [] bgChEx
      true false none (by decide) (by decide),
    by decide, by decide⟩

/-- C7. For a line element carrying explicit begin and end attributes (a
valid clock time is in particular non empty) the output line timing equals
exactly the Timespan Codec decoding of the two attribute values, whatever
the words of the line are; the background children are excluded only so
that the invocation appends exactly one line. -/
theorem C7_explicit_line_timing (env : JsEnv) (ctx : ParseCtx) (st : PState)
    (tag : String) (attrs : List XAttr) (children : List XNode)
    (isDuet : Bool) (key : Option String) (b e : String)
    (hb : getAttribute attrs "begin" = some b) (hbne : b.data ≠ [])
    (he : getAttribute attrs "end" = some e) (hene : e.data ≠ [])
    (hNoBg : ∀ n ∈ children, isBgRoleSpan n = false) :
    ∃ ln, (parseLineElement env ctx st (.elem tag attrs children) false isDuet key).lyricLines
        = st.lyricLines ++ [ln] ∧ ln.startTime = env.pt b ∧ ln.endTime = env.pt e :=
  parseLineElement_explicit_times env ctx st tag attrs children isDuet key b e
    hb hbne he hene hNoBg

/-- C7 (witness). The statement evaluated on a line with begin 1.0s, end
2.0s and one word child timed differently from the line. -/
theorem C7_witness :
    (getAttribute [XAttr.mk "begin" "1.0s", XAttr.mk "end" "2.0s"] "begin" = some "1.0s") ∧
    (∃ ln, (parseLineElement envDemo ctxEmpty stEmpty
        (XNode.elem "p" [XAttr.mk "begin" "1.0s", XAttr.mk "end" "2.0s"]
          [XNode.elem "span" [XAttr.mk "begin" "1.0s", XAttr.mk "end" "1.5s"]
            [XNode.text "Hello"]]) false false none).lyricLines
        = stEmpty.lyricLines ++ [ln] ∧
      ln.startTime = envDemo.pt "1.0s" ∧ ln.endTime = envDemo.pt "2.0s") :=
  ⟨by decide,
    C7_explicit_line_timing envDemo ctxEmpty stEmpty "p"
      [XAttr.mk "begin" "1.0s", XAttr.mk "end" "2.0s"]
      [XNode.elem "span" [XAttr.mk "begin" "1.0s", XAttr.mk "end" "1.5s"]
        [XNode.text "Hello"]]
      false none "1.0s" "2.0s" (by decide) (by decide) (by decide) (by decide) (by decide)⟩

/-- C8 (counterexample). A line whose begin attribute decodes after its end
attribute: both times are derived from explicit attributes, yet the output
has endTime 1000 strictly below startTime 2000. The demonstration codec is
order preserving on the two clock times involved, so the violation comes
from the document, which the source never checks. -/
theorem C8_counterexample :
    (parseLineElement envDemo ctxEmpty stEmpty
        (XNode.elem "p" [XAttr.mk "begin" "2.0s", XAttr.mk "end" "1.0s"] [])
        false false none).lyricLines.map
      (fun l => (l.startTime, l.endTime)) = [((2000 : Time), (1000 : Time))] ∧
    ¬((1000 : Time) ≥ (2000 : Time)) := by
  constructor
  · decide
  · decide

/-- C8 (amended). endTime is at least startTime on a line with explicit
timing attributes provided the decoded end value is at least the decoded
begin value; the source orders the two values exactly as the codec decodes
them and enforces nothing. -/
theorem C8_explicit_timing_order (env : JsEnv) (ctx : ParseCtx) (st : PState)
    (tag : String) (attrs : List XAttr) (children : List XNode)
    (isDuet : Bool) (key : Option String) (b e : String)
    (hb : getAttribute attrs "begin" = some b) (hbne : b.data ≠ [])
    (he : getAttribute attrs "end" = some e) (hene : e.data ≠ [])
    (hNoBg : ∀ n ∈ children, isBgRoleSpan n = false)
    (hle : env.pt b ≤ env.pt e) :
    ∃ ln, (parseLineElement env ctx st (.elem tag attrs children) false isDuet key).lyricLines
        = st.lyricLines ++ [ln] ∧ ln.startTime ≤ ln.endTime := by
  obtain ⟨ln, h1, h2, h3⟩ := parseLineElement_explicit_times env ctx st tag attrs children
    isDuet key b e hb hbne he hene hNoBg
  exact ⟨ln, h1, by rw [h2, h3]; exact hle⟩

/-- C8 (witness). The amended statement evaluated on a line with begin
1.0s and end 2.0s. -/
theorem C8_witness :
    (ptDemo "1.0s" ≤ ptDemo "2.0s") ∧
    (∃ ln, (parseLineElement envDemo ctxEmpty stEmpty
        (XNode.elem "p" [XAttr.mk "begin" "1.0s", XAttr.mk "end" "2.0s"] [XNode.text "Hi"])
        false false none).lyricLines
        = stEmpty.lyricLines ++ [ln] ∧ ln.startTime ≤ ln.endTime) :=
  ⟨by decide,
    C8_explicit_timing_order envDemo ctxEmpty stEmpty "p"
      [XAttr.mk "begin" "1.0s", XAttr.mk "end" "2.0s"] [XNode.text "Hi"]
      false none "1.0s" "2.0s" (by decide) (by decide) (by decide) (by decide)
      (by decide) (by decide)⟩

/-- C10. Line processing never mutates the word romanization map: any Line
Builder invocation returns it unchanged, and consequently a later
invocation resolving the same itunes key reads exactly the pool an earlier
invocation saw, consumption notwithstanding (consumption acts on the local
copy made by initLineLoop). -/
theorem C10_wordRom_frame :
    (∀ (env : JsEnv) (ctx : ParseCtx) (st : PState) (lineEl : XNode)
        (isBG isDuet : Bool) (key : Option String),
      (parseLineElement env ctx st lineEl isBG isDuet key).itunesWordRomanizations =
        st.itunesWordRomanizations) ∧
    (∀ (env : JsEnv) (ctx : ParseCtx) (st : PState) (lineEl : XNode)
        (isBG isDuet : Bool) (key : Option String)
        (attrs2 : List XAttr) (isBG2 isDuet2 : Bool) (key2 : Option String),
      (initLineLoop env ctx (parseLineElement env ctx st lineEl isBG isDuet key)
          attrs2 isBG2 isDuet2 key2).avail =
        (initLineLoop env ctx st attrs2 isBG2 isDuet2 key2).avail) := by
  constructor
  · intro env ctx st lineEl isBG isDuet key
    exact parseLineElement_wordRom env ctx st lineEl isBG isDuet key
  · intro env ctx st lineEl isBG isDuet key attrs2 isBG2 isDuet2 key2
    rw [initLineLoop_avail, initLineLoop_avail, parseLineElement_wordRom]

/-- Children of an element node. -/
def xChildren : XNode → List XNode
  | .text _ => []
  | .elem _ _ ch => ch

/-- Processing a child sequence with exactly one background span: the loop
appends exactly one line to the shared output (the one produced by the
recursive invocation on the background span, starting from the unchanged
state), sets haveBg, and that line carries the background flag. -/
theorem processLineChildren_oneBg (env : JsEnv) (ctx : ParseCtx) (key : Option String)
    (S : XNode) (post : List XNode)
    (hS : isBgRoleSpan S = true)
    (hSch : ∀ m ∈ xChildren S, isBgRoleSpan m = false)
    (hpost : ∀ n ∈ post, isBgRoleSpan n = false) :
    ∀ (pre : List XNode) (ll : LineLoop), (∀ n ∈ pre, isBgRoleSpan n = false) →
    ∃ b, (processLineChildren env ctx key ll (pre ++ S :: post)).st =
          { ll.st with lyricLines := ll.st.lyricLines ++ [b] } ∧
        (processLineChildren env ctx key ll (pre ++ S :: post)).haveBg = true ∧
        (processLineChildren env ctx key ll (pre ++ S :: post)).line.isBG = ll.line.isBG ∧
        parseLineElement env ctx ll.st S true ll.line.isDuet key =
          { ll.st with lyricLines := ll.st.lyricLines ++ [b] } ∧
        b.isBG = true := by
  intro pre
  induction pre with
  | nil =>
      intro ll _
      cases S with
      | text s => simp [isBgRoleSpan] at hS
      | elem tagS cattrsS chS =>
          have hnb : ∀ m ∈ chS, isBgRoleSpan m = false := hSch
          simp only [isBgRoleSpan, Bool.and_eq_true, beq_iff_eq] at hS
          obtain ⟨htag, hrole⟩ := hS
          subst htag
          have hone := parseLineElement_noBg env ctx ll.st "span" cattrsS chS
            true ll.line.isDuet key hnb
          have hcond : (("span" == "span") && optTruthy (some "x-bg")) = true := by decide
          have hbgeq : ((some "x-bg" : Option String) == some "x-bg") = true := by decide
          simp only [List.nil_append, processLineChildren, hrole, hcond, hbgeq, if_true]
          have hstp := processLineChildren_st_inv env ctx key post
            { ll with
              st := parseLineElement env ctx ll.st (XNode.elem "span" cattrsS chS)
                true ll.line.isDuet key
              haveBg := true } hpost
          have hlinv := processLineChildren_line_inv env ctx key post
            { ll with
              st := parseLineElement env ctx ll.st (XNode.elem "span" cattrsS chS)
                true ll.line.isDuet key
              haveBg := true }
          refine ⟨finishLine (optTruthy (getAttribute cattrsS "begin") &&
              optTruthy (getAttribute cattrsS "end"))
            (processLineChildren env ctx (lineKey cattrsS true key)
              (initLineLoop env ctx ll.st cattrsS true ll.line.isDuet key) chS).line,
            ?_, ?_, ?_, hone, ?_⟩
          · rw [hstp.1]
            exact hone
          · rw [hstp.2]
          · rw [hlinv.1]
          · rw [finishLine_isBG,
              (processLineChildren_line_inv env ctx (lineKey cattrsS true key) chS
                (initLineLoop env ctx ll.st cattrsS true ll.line.isDuet key)).1,
              initLineLoop_isBG]
  | cons p pre ih =>
      intro ll h
      have hp := h _ (List.mem_cons_self _ _)
      have hrest : ∀ n ∈ pre, isBgRoleSpan n = false :=
        fun n hn => h n (List.mem_cons_of_mem _ hn)
      cases p with
      | text s =>
          simp only [List.cons_append, processLineChildren]
          exact ih _ hrest
      | elem tagp cattrsp chp =>
          simp only [isBgRoleSpan, Bool.and_eq_false_iff] at hp
          simp only [List.cons_append, processLineChildren]
          split
          · split
            · rename_i h1 h2
              exfalso
              rcases hp with hh | hh
              · simp only [Bool.and_eq_true] at h1
                simp [h1.1] at hh
              · simp [h2] at hh
            · repeat' split
              all_goals exact ih _ hrest
          · split
            all_goals exact ih _ hrest

/-- C3. The ordering discipline: a main line with exactly one background
span among its children yields the main line immediately followed by the
background line that the recursive call produced, although the recursion
appended the background line first. The background span carries no further
background children (one level of nesting, as the format prescribes). -/
theorem C3_bg_line_order (env : JsEnv) (ctx : ParseCtx) (st : PState)
    (tag : String) (attrs : List XAttr) (isDuet : Bool) (key : Option String)
    (pre : List XNode) (S : XNode) (post : List XNode)
    (hS : isBgRoleSpan S = true)
    (hSch : ∀ m ∈ xChildren S, isBgRoleSpan m = false)
    (hpre : ∀ n ∈ pre, isBgRoleSpan n = false)
    (hpost : ∀ n ∈ post, isBgRoleSpan n = false) :
    ∃ mainLine bgLine,
      (parseLineElement env ctx st (.elem tag attrs (pre ++ S :: post))
          false isDuet key).lyricLines
        = st.lyricLines ++ [mainLine, bgLine] ∧
      mainLine.isBG = false ∧ bgLine.isBG = true ∧
      parseLineElement env ctx st S true
          (initLineLoop env ctx st attrs false isDuet key).line.isDuet
          (lineKey attrs false key) =
        { st with lyricLines := st.lyricLines ++ [bgLine] } := by
  obtain ⟨b, h1, h2, h3, h4, h5⟩ :=
    processLineChildren_oneBg env ctx (lineKey attrs false key) S post hS hSch hpost
      pre (initLineLoop env ctx st attrs false isDuet key) hpre
  simp only [parseLineElement, h1, h2, if_true, initLineLoop_st]
  rw [List.getLast?_concat, List.dropLast_concat]
  refine ⟨_, b, rfl, ?_, h5, h4⟩
  rw [finishLine_isBG, h3, initLineLoop_isBG]

/-- C3 (witness). The ordering statement evaluated on a line with one text
child, one background span child, and nothing after it. -/
theorem C3_witness :
    (isBgRoleSpan (XNode.elem "span"
        [XAttr.mk "ttm:role" "x-bg", XAttr.mk "begin" "3.0s", XAttr.mk "end" "4.0s"]
        [XNode.text "bg"]) = true) ∧
    (∃ mainLine bgLine,
      (parseLineElement envDemo ctxEmpty stEmpty
          (XNode.elem "p" [XAttr.mk "begin" "1.0s", XAttr.mk "end" "2.0s"]
            ([XNode.text "Hi"] ++ (XNode.elem "span"
              [XAttr.mk "ttm:role" "x-bg", XAttr.mk "begin" "3.0s", XAttr.mk "end" "4.0s"]
              [XNode.text "bg"]) :: []))
          false false none).lyricLines
        = stEmpty.lyricLines ++ [mainLine, bgLine] ∧
      mainLine.isBG = false ∧ bgLine.isBG = true ∧
      parseLineElement envDemo ctxEmpty stEmpty
          (XNode.elem "span"
            [XAttr.mk "ttm:role" "x-bg", XAttr.mk "begin" "3.0s", XAttr.mk "end" "4.0s"]
            [XNode.text "bg"]) true
          (initLineLoop envDemo ctxEmpty stEmpty
            [XAttr.mk "begin" "1.0s", XAttr.mk "end" "2.0s"] false false none).line.isDuet
          (lineKey [XAttr.mk "begin" "1.0s", XAttr.mk "end" "2.0s"] false none) =
        { stEmpty with lyricLines := stEmpty.lyricLines ++ [bgLine] }) :=
  ⟨by decide,
    C3_bg_line_order envDemo ctxEmpty stEmpty "p"
      [XAttr.mk "begin" "1.0s", XAttr.mk "end" "2.0s"] false none
      [XNode.text "Hi"]
      (XNode.elem "span"
        [XAttr.mk "ttm:role" "x-bg", XAttr.mk "begin" "3.0s", XAttr.mk "end" "4.0s"]
        [XNode.text "bg"])
      [] (by decide) (by decide) (by decide) (by decide)⟩

/-- Decomposition of a successful first-index search: the list splits into
a prefix of non matching entries, the first matching entry, and a
suffix. -/
theorem findIdx?_split (p : RomanWord → Bool) :
    ∀ (l : List RomanWord) (s i : ℕ), List.findIdx? p l s = some i →
      ∃ pre r suf, l = pre ++ r :: suf ∧ s + pre.length = i ∧ p r = true ∧
        ∀ q ∈ pre, p q = false := by
  intro l
  induction l with
  | nil => intro s i h; simp [List.findIdx?] at h
  | cons x xs ih =>
      intro s i h
      rw [List.findIdx?_cons] at h
      by_cases hp : p x = true
      · rw [if_pos hp] at h
        obtain rfl : s = i := by simpa using h
        exact ⟨[], x, xs, rfl, by simp, hp, by simp⟩
      · rw [if_neg hp] at h
        obtain ⟨pre, r, suf, heq, hlen, hr, hpre⟩ := ih (s + 1) i h
        refine ⟨x :: pre, r, suf, by simp [heq], by simp [Nat.succ_add] at hlen ⊢; omega,
          hr, ?_⟩
        intro q hq
        rcases List.mem_cons.mp hq with rfl | hq
        · simpa using hp
        · exact hpre q hq

/-- Reading the entry at the prefix length. -/
theorem getD_append_length (pre suf : List RomanWord) (r d : RomanWord) :
    (pre ++ r :: suf).getD pre.length d = r := by
  induction pre with
  | nil => rfl
  | cons x xs ih => simpa using ih

/-- Erasing the entry at the prefix length. -/
theorem eraseIdx_append_length (pre suf : List RomanWord) (r : RomanWord) :
    (pre ++ r :: suf).eraseIdx pre.length = pre ++ suf := by
  induction pre with
  | nil => rfl
  | cons x xs ih => simpa using ih

/-- Pool and state used by the romanization matching example: the key L1
carries the two-entry main pool of the claim. -/
def stPool : PState :=
  { lyricLines := []
    itunesWordRomanizations :=
      [("L1", { main := [{ startTime := 0, endTime := 500, text := "a" },
                         { startTime := 500, endTime := 900, text := "b" }]
                bg := [] })] }

/-- C4. Word romanization matching: a successful search decomposes the pool
into non matching entries, the first matching entry (whose text is
assigned and which is removed), and the rest; a failed search leaves word
and pool unchanged. On the concrete line of the claim, with pool
[(0,500,a),(500,900,b)] and three word spans timed (0,500), (500,900) and
(0,500), the words receive a, b and the empty string. -/
theorem C4_roman_matching :
    (∀ (avail : List RomanWord) (w : LyricWord) (i : ℕ),
      avail.findIdx? (romanMatches w) = some i →
      ∃ pre r suf, avail = pre ++ r :: suf ∧ pre.length = i ∧
        romanMatches w r = true ∧ (∀ q ∈ pre, romanMatches w q = false) ∧
        matchRoman avail w = ({ w with romanWord := r.text }, pre ++ suf)) ∧
    (∀ (avail : List RomanWord) (w : LyricWord),
      avail.findIdx? (romanMatches w) = none → matchRoman avail w = (w, avail)) ∧
    ((parseLineElement envDemo ctxEmpty stPool
        (XNode.elem "p"
          [XAttr.mk "begin" "1.0s", XAttr.mk "end" "2.0s", XAttr.mk "itunes:key" "L1"]
          [XNode.elem "span" [XAttr.mk "begin" "0.0s", XAttr.mk "end" "0.5s"]
            [XNode.text "w1"],
           XNode.elem "span" [XAttr.mk "begin" "0.5s", XAttr.mk "end" "0.9s"]
            [XNode.text "w2"],
           XNode.elem "span" [XAttr.mk "begin" "0.0s", XAttr.mk "end" "0.5s"]
            [XNode.text "w3"]])
        false false none).lyricLines.map
      (fun l => l.words.map (fun w => w.romanWord)) = [["a", "b", ""]]) := by
  refine ⟨?_, ?_, ?_⟩
  · intro avail w i h
    obtain ⟨pre, r, suf, heq, hlen, hr, hpre⟩ := findIdx?_split (romanMatches w) avail 0 i h
    simp only [Nat.zero_add] at hlen
    refine ⟨pre, r, suf, heq, hlen, hr, hpre, ?_⟩
    have hpos : avail.length > 0 := by
      rw [heq]; simp
    simp only [matchRoman, if_pos hpos, h]
    subst heq
    subst hlen
    rw [getD_append_length, eraseIdx_append_length]
  · intro avail w h
    simp only [matchRoman, h]
    split <;> rfl
  · decide

/-- The first pool entry of the matching example. -/
def rwA : RomanWord := { startTime := 0, endTime := 500, text := "a" }

/-- The second pool entry of the matching example. -/
def rwB : RomanWord := { startTime := 500, endTime := 900, text := "b" }

/-- A word timed (0,500) used by the matching example. -/
def wDemo1 : LyricWord :=
  { word := "w1", startTime := 0, endTime := 500, obscene := false,
    emptyBeat := 0, romanWord := "", ruby := none }

/-- C4 (witness). The first-match statement evaluated on the concrete pool
of the claim and a word timed (0,500). -/
theorem C4_witness :
    ∃ pre r suf,
      [rwA, rwB] = pre ++ r :: suf ∧ pre.length = 0 ∧
      romanMatches wDemo1 r = true ∧
      (∀ q ∈ pre, romanMatches wDemo1 q = false) ∧
      matchRoman [rwA, rwB] wDemo1 =
        ({ wDemo1 with romanWord := r.text }, pre ++ suf) :=
  C4_roman_matching.1 [rwA, rwB] wDemo1 0 (by decide)

/-- The empty line used as a neutral loop state in evaluations. -/
def lineEmpty : LyricLine :=
  { words := [], translatedLyric := "", romanLyric := "", isBG := false,
    isDuet := false, startTime := 0, endTime := 0, ignoreSync := false }

/-- The neutral loop state around the empty shared state. -/
def llEmpty : LineLoop := { st := stEmpty, line := lineEmpty, avail := [], haveBg := false }

/-- C9. A word span that is not a ruby container and lacks a truthy begin
or end attribute: the Word Builder returns none, and processing that child
leaves the loop state untouched, so the rest of the line is built exactly
as if the child were absent; no error arises (the functions are total). -/
theorem C9_missing_word_timing (env : JsEnv) (ctx : ParseCtx) (key : Option String)
    (ll : LineLoop) (tag : String) (cattrs : List XAttr) (ch rest : List XNode)
    (hword : (tag == "span" && optTruthy (getAttribute cattrs "ttm:role")) = false)
    (hruby : (parseSpanNode (XNode.elem tag cattrs ch)).ruby ≠ some "container")
    (hmiss : optTruthy (getAttr cattrs "begin") = false ∨
      optTruthy (getAttr cattrs "end") = false) :
    createWordFromSpanElement env (XNode.elem tag cattrs ch) = none ∧
    processLineChildren env ctx key ll (XNode.elem tag cattrs ch :: rest) =
      processLineChildren env ctx key ll rest := by
  have hbeq : ((parseSpanNode (XNode.elem tag cattrs ch)).ruby == some "container")
      = false := by
    exact beq_eq_false_iff_ne.mpr hruby
  have hnone : createWordFromSpanElement env (XNode.elem tag cattrs ch) = none := by
    simp only [createWordFromSpanElement, hbeq, Bool.false_eq_true, if_false]
    rcases hmiss with hm | hm <;> simp [hm]
  refine ⟨hnone, ?_⟩
  simp only [processLineChildren, hword, Bool.false_eq_true, if_false, hnone]

/-- C9 (witness). The statement evaluated on a span without timing
attributes, followed by one remaining text child. -/
theorem C9_witness :
    ((("span" == "span") && optTruthy (getAttribute [] "ttm:role")) = false) ∧
    ((parseSpanNode (XNode.elem "span" [] [XNode.text "hi"])).ruby ≠ some "container") ∧
    (createWordFromSpanElement envNull (XNode.elem "span" [] [XNode.text "hi"]) = none ∧
      processLineChildren envNull ctxEmpty none llEmpty
        (XNode.elem "span" [] [XNode.text "hi"] :: [XNode.text "rest"]) =
        processLineChildren envNull ctxEmpty none llEmpty [XNode.text "rest"]) :=
  ⟨by decide, by decide,
    C9_missing_word_timing envNull ctxEmpty none llEmpty "span" [] [XNode.text "hi"]
      [XNode.text "rest"] (by decide) (by decide) (Or.inl (by decide))⟩

/-- A non empty string is truthy. -/
theorem optTruthy_of_ne (s : String) (h : s.data ≠ []) : optTruthy (some s) = true := by
  simp only [optTruthy, Bool.not_eq_true']
  cases hd : s.data with
  | nil => exact absurd hd h
  | cons c cs => rfl

/-- The boolean and the propositional comparison against the infinite
sentinel agree. -/
theorem beq_top_ite (t : Time) : (if t == ⊤ then (0 : Time) else t) =
    (if t = ⊤ then 0 else t) := by
  by_cases h : t = ⊤ <;> simp [h]

/-- The ruby segment list as the specification words it: each collected
ruby text span, timed by its own truthy begin and end when present, else
by the container timing, else 0. Stated from the specification to be
compared with the Word Builder. -/
def specRubySegments (env : JsEnv) (attrs : List XAttr) (sn : SpanNode) :
    List LyricWordBase :=
  (collectRubyTextSpans sn).map (fun rs =>
    { word := flattenSpanInnerText rs skipRolesTR
      startTime := timeOfAttr env.pt rs.beginAttr
        ((timeOfAttrOpt env.pt (getAttr attrs "begin")).getD 0)
      endTime := timeOfAttr env.pt rs.endAttr
        ((timeOfAttrOpt env.pt (getAttr attrs "end")).getD 0) })

/-- Minimum start over the non-whitespace segments, 0 when none exists, as
the specification words it. -/
def specMinStart (l : List LyricWordBase) : Time :=
  let s := (l.filter (fun v => wordNonWS v.word)).foldl (fun pv cv => min pv cv.startTime) ⊤
  if s = ⊤ then 0 else s

/-- Maximum end over the non-whitespace segments, 0 when none exists, as
the specification words it. -/
def specMaxEnd (l : List LyricWordBase) : Time :=
  (l.filter (fun v => wordNonWS v.word)).foldl (fun pv cv => max pv cv.endTime) 0

/-- C6. On a word element whose outermost span is a ruby container, the
Word Builder produces a word whose ruby segments are the collected ruby
text spans, each timed by its own truthy begin and end, else by the
container timing, else 0; the word itself takes the explicit container
timing when present and otherwise the minimum start and maximum end over
the segments with non-whitespace text, the infinite seed collapsing to 0;
the ruby field is present only when at least one segment exists. -/
theorem C6_ruby_container_timing (env : JsEnv) (tag : String) (attrs : List XAttr)
    (ch : List XNode)
    (hc : (parseSpanNode (XNode.elem tag attrs ch)).ruby = some "container") :
    ∃ w, createWordFromSpanElement env (XNode.elem tag attrs ch) = some w ∧
      w.ruby = (if (specRubySegments env attrs (parseSpanNode (XNode.elem tag attrs ch))).length > 0
        then some (specRubySegments env attrs (parseSpanNode (XNode.elem tag attrs ch)))
        else none) ∧
      w.startTime = (timeOfAttrOpt env.pt (getAttr attrs "begin")).getD
        (specMinStart (specRubySegments env attrs (parseSpanNode (XNode.elem tag attrs ch)))) ∧
      w.endTime = (timeOfAttrOpt env.pt (getAttr attrs "end")).getD
        (specMaxEnd (specRubySegments env attrs (parseSpanNode (XNode.elem tag attrs ch)))) := by
  have hcb : ((parseSpanNode (XNode.elem tag attrs ch)).ruby == some "container") = true := by
    rw [hc]; rfl
  simp only [createWordFromSpanElement, hcb, if_true]
  refine ⟨_, rfl, rfl, ?_, rfl⟩
  simp only [computeWordTiming, specRubySegments, specMinStart]
  rw [beq_top_ite]

/-- The ruby container of the concrete example: begin 1.0s, end 2.0s, a
base span, and two ruby text spans without own timing. -/
def rubyEx : XNode :=
  XNode.elem "span"
    [XAttr.mk "ruby" "container", XAttr.mk "begin" "1.0s", XAttr.mk "end" "2.0s"]
    [XNode.elem "span" [XAttr.mk "ruby" "base"] [XNode.text "字"],
     XNode.elem "span" [XAttr.mk "ruby" "text"] [XNode.text "a"],
     XNode.elem "span" [XAttr.mk "ruby" "text"] [XNode.text "b"]]

/-- C6 (witness). The container statement evaluated on the concrete
example, together with the resulting explicit word: timed (1000,2000) with
two ruby segments both timed (1000,2000). -/
theorem C6_witness :
    ((parseSpanNode rubyEx).ruby = some "container") ∧
    (∃ w, createWordFromSpanElement envDemo rubyEx = some w ∧
      w.ruby = (if (specRubySegments envDemo
          [XAttr.mk "ruby" "container", XAttr.mk "begin" "1.0s", XAttr.mk "end" "2.0s"]
          (parseSpanNode rubyEx)).length > 0
        then some (specRubySegments envDemo
          [XAttr.mk "ruby" "container", XAttr.mk "begin" "1.0s", XAttr.mk "end" "2.0s"]
          (parseSpanNode rubyEx))
        else none)) ∧
    (createWordFromSpanElement envDemo rubyEx = some
      { word := "字", startTime := 1000, endTime := 2000, obscene := false,
        emptyBeat := 0, romanWord := "",
        ruby := some [{ word := "a", startTime := 1000, endTime := 2000 },
                      { word := "b", startTime := 1000, endTime := 2000 }] }) :=
  ⟨by decide,
    (C6_ruby_container_timing envDemo "span"
      [XAttr.mk "ruby" "container", XAttr.mk "begin" "1.0s", XAttr.mk "end" "2.0s"]
      [XNode.elem "span" [XAttr.mk "ruby" "base"] [XNode.text "字"],
       XNode.elem "span" [XAttr.mk "ruby" "text"] [XNode.text "a"],
       XNode.elem "span" [XAttr.mk "ruby" "text"] [XNode.text "b"]]
      (by decide)).elim (fun w hw => ⟨w, hw.1, hw.2.1⟩),
    by decide⟩

/-- Deleting a key makes its lookup fail. -/
theorem lookupKey_eraseKey_self {α : Type} (m : List (String × α)) (k : String) :
    lookupKey (eraseKey m k) k = none := by
  induction m with
  | nil => rfl
  | cons p rest ih =>
      simp only [eraseKey, List.filter] at ih ⊢
      by_cases h : (p.1 == k) = true
      · simp only [h, Bool.not_true]
        exact ih
      · simp only [h, Bool.not_false]
        simp only [lookupKey, List.find?, h]
        exact ih

/-- Deletion never makes a failing lookup succeed. -/
theorem lookupKey_eraseKey_none {α : Type} (m : List (String × α)) (k t : String)
    (h : lookupKey m t = none) : lookupKey (eraseKey m k) t = none := by
  induction m with
  | nil => rfl
  | cons p rest ih =>
      by_cases hpt : (p.1 == t) = true
      · simp [lookupKey, List.find?, hpt] at h
      · simp only [lookupKey, List.find?, hpt] at h
        by_cases hpk : (p.1 == k) = true
        · simp only [eraseKey, List.filter, hpk, Bool.not_true]
          exact ih h
        · simp only [eraseKey, List.filter, hpk, Bool.not_false]
          simp only [lookupKey, List.find?, hpt]
          exact ih h

/-- One step of the timed translations pass never restores a deleted plain
entry. -/
theorem timedStep_plain_none (K : String)
    (acc : List (String × LineMetadata) × List (String × LineMetadata)) (el : XNode)
    (h : lookupKey acc.1 K = none) :
    lookupKey (timedTranslationsStep acc el).1 K = none := by
  cases el with
  | text s => exact h
  | elem tag attrs children =>
      simp only [timedTranslationsStep]
      split
      · exact h
      · split
        · exact lookupKey_eraseKey_none _ _ _ h
        · exact h

/-- The whole timed translations pass never restores a deleted plain
entry. -/
theorem foldl_timed_plain_none (K : String) :
    ∀ (els : List XNode)
      (acc : List (String × LineMetadata) × List (String × LineMetadata)),
      lookupKey acc.1 K = none →
      lookupKey (els.foldl timedTranslationsStep acc).1 K = none := by
  intro els
  induction els with
  | nil => intro acc h; exact h
  | cons e rest ih =>
      intro acc h
      exact ih _ (timedStep_plain_none K acc e h)

/-- A translation text element with a truthy key, non empty normalized
content and a descendant span deletes the plain entry of its key. -/
theorem timedStep_triggers (K : String)
    (acc : List (String × LineMetadata) × List (String × LineMetadata))
    (tag : String) (attrs : List XAttr) (children : List XNode)
    (hkey : getAttribute attrs "for" = some K) (hKne : K.data ≠ [])
    (hne : (!(jsTrim (transTextOfChildren children).1).data.isEmpty ||
            !(stripParenWrap (transTextOfChildren children).2).data.isEmpty) = true)
    (hspan : hasSpanList children = true) :
    lookupKey (timedTranslationsStep acc (XNode.elem tag attrs children)).1 K = none := by
  simp only [timedTranslationsStep, hkey, optTruthy_of_ne K hKne, Bool.not_true,
    Bool.false_eq_true, if_false, hne, hspan, Bool.and_self, if_true]
  exact lookupKey_eraseKey_self _ _

/-- C5. A key K whose translation text element has non empty normalized
content and contains a nested span: the plain translation entry for K is
absent from the final plain map, and the line metadata resolution for K
reduces to the timed map with the empty string fallback (the plain map
branch can never fire for K). -/
theorem C5_timed_suppresses_plain (textEls : List XNode) (tag : String)
    (attrs : List XAttr) (children : List XNode) (K : String)
    (hmem : XNode.elem tag attrs children ∈ textEls)
    (hkey : getAttribute attrs "for" = some K) (hKne : K.data ≠ [])
    (hne : (!(jsTrim (transTextOfChildren children).1).data.isEmpty ||
            !(stripParenWrap (transTextOfChildren children).2).data.isEmpty) = true)
    (hspan : hasSpanList children = true) :
    lookupKey (buildTranslationMaps textEls).1 K = none ∧
    (∀ (R : List (String × LineMetadata)) (A : String) (isBG : Bool),
      resolveLineTranslated
        { itunesTranslations := (buildTranslationMaps textEls).1
          itunesTimedTranslations := (buildTranslationMaps textEls).2
          itunesLineRomanizations := R
          mainAgentId := A } isBG K =
      match lookupKey (buildTranslationMaps textEls).2 K with
      | some md => if isBG then md.bg else md.main
      | none => "") := by
  have hplain : lookupKey (buildTranslationMaps textEls).1 K = none := by
    obtain ⟨l1, l2, heq⟩ := List.append_of_mem hmem
    rw [heq]
    unfold buildTranslationMaps
    rw [List.foldl_append, List.foldl_cons]
    exact foldl_timed_plain_none K l2 _
      (timedStep_triggers K _ tag attrs children hkey hKne hne hspan)
  refine ⟨hplain, ?_⟩
  intro R A isBG
  simp only [resolveLineTranslated]
  cases htimed : lookupKey (buildTranslationMaps textEls).2 K with
  | some md => rfl
  | none =>
      rw [hplain]

/-- The translation text element of the C5 witness: key L1, non empty main
text and a nested span. -/
def transEx : XNode :=
  XNode.elem "text" [XAttr.mk "for" "L1"]
    [XNode.text "Hi", XNode.elem "span" [] [XNode.text "inner"]]

/-- C5 (witness). The suppression statement evaluated on a one-element
selection. -/
theorem C5_witness :
    (XNode.elem "text" [XAttr.mk "for" "L1"]
      [XNode.text "Hi", XNode.elem "span" [] [XNode.text "inner"]] ∈ [transEx]) ∧
    (lookupKey (buildTranslationMaps [transEx]).1 "L1" = none ∧
    (∀ (R : List (String × LineMetadata)) (A : String) (isBG : Bool),
      resolveLineTranslated
        { itunesTranslations := (buildTranslationMaps [transEx]).1
          itunesTimedTranslations := (buildTranslationMaps [transEx]).2
          itunesLineRomanizations := R
          mainAgentId := A } isBG "L1" =
      match lookupKey (buildTranslationMaps [transEx]).2 "L1" with
      | some md => if isBG then md.bg else md.main
      | none => "")) :=
  ⟨List.mem_singleton.mpr rfl,
    C5_timed_suppresses_plain [transEx] "text" [XAttr.mk "for" "L1"]
      [XNode.text "Hi", XNode.elem "span" [] [XNode.text "inner"]] "L1"
      (List.mem_singleton.mpr rfl) (by decide) (by decide) (by decide) (by decide)⟩


